import Mathlib

/-!
Verification development for the `foundry` CLI test-utils module
(`cli/test-utils/src/util.rs`).

The module provides an integration-test harness: ephemeral test projects
(`TestProject`), a process wrapper (`TestCommand`) with a global
working-directory lock, output-fixture comparison with normalization of
volatile substrings (`IGNORE_IN_FIXTURES`, `OutputExt`), and a bounded
`Retry` combinator.

This file shallowly embeds those parts of the source and proves or refutes
the specification's claims about them.  Definitions come first, then the
theorems.
-/

namespace Foundry

/-! ## Output normalizer

The source normalizes captured output with

  `Regex::new(r"(finished in (.*)?s|-->(.*).sol|Location(.*?)\.rs(.*)?Backtrace)")`

and `replace_all(text, "")`.  The Rust `regex` crate uses leftmost-first
(Perl-style) match semantics: alternatives are tried in order, `.*` is greedy,
`.*?` is lazy, and `.` matches any character except `'\n'`.  `replace_all`
replaces every non-overlapping match, scanning left to right and resuming
immediately after each match.  We embed exactly this pattern as a matcher on
`List Char`: each combinator returns the length of the match at the head of
the input (following the branch's preference order), or `none`.
-/

/-- One character matched by `.`: any character other than a newline. -/
def isDotChar (c : Char) : Bool := c ≠ '\n'

/-- Match a literal string at the head of the input, then continue. -/
def litM (s : String) (cont : List Char → Option Nat) (l : List Char) : Option Nat :=
  if s.toList.isPrefixOf l then
    (cont (l.drop s.toList.length)).map (s.toList.length + ·)
  else none

/-- Empty continuation: always matches, consuming nothing. -/
def epsM (_l : List Char) : Option Nat :=
  some 0

/-- Match a single `.` (any non-newline character), then continue. -/
def dotM (cont : List Char → Option Nat) : List Char → Option Nat
  | [] => none
  | c :: rest => if isDotChar c then (cont rest).map (· + 1) else none

/-- Greedy `.*`: among all prefixes of non-newline characters after which the
continuation matches, prefer the longest. -/
def greedyStar (cont : List Char → Option Nat) (l : List Char) : Option Nat :=
  (List.range (l.length + 1)).reverse.findSome? fun k =>
    if (l.take k).all isDotChar then (cont (l.drop k)).map (k + ·) else none

/-- Lazy `.*?`: among all prefixes of non-newline characters after which the
continuation matches, prefer the shortest. -/
def lazyStar (cont : List Char → Option Nat) (l : List Char) : Option Nat :=
  (List.range (l.length + 1)).findSome? fun k =>
    if (l.take k).all isDotChar then (cont (l.drop k)).map (k + ·) else none

/-- First alternative of `IGNORE_IN_FIXTURES`: `finished in (.*)?s`.
`(.*)?` matches the same extents as `.*` (the optional greedy group can match
the empty string), so it is embedded as a greedy star. -/
def branchFinished : List Char → Option Nat :=
  litM "finished in " (greedyStar (litM "s" epsM))

/-- Second alternative of `IGNORE_IN_FIXTURES`: `-->(.*).sol` (the `.` before
`sol` is an unescaped regex dot, i.e. any non-newline character). -/
def branchSol : List Char → Option Nat :=
  litM "-->" (greedyStar (dotM (litM "sol" epsM)))

/-- Third alternative of `IGNORE_IN_FIXTURES`: `Location(.*?)\.rs(.*)?Backtrace`. -/
def branchBacktrace : List Char → Option Nat :=
  litM "Location" (lazyStar (litM ".rs" (greedyStar (litM "Backtrace" epsM))))

/-- Length of the `IGNORE_IN_FIXTURES` match starting at the head of `l`,
trying the three alternatives in order (leftmost-first semantics). -/
def matchAt (l : List Char) : Option Nat :=
  ((branchFinished l).orElse fun _ => (branchSol l).orElse fun _ => branchBacktrace l)

/-- Worker for `replaceAll`, structurally recursive on a fuel bound.  Each
iteration consumes at least one character (every match of this pattern is
non-empty, since each alternative begins with a non-empty literal), so fuel
equal to the input length is always sufficient and the `0`-fuel fallback is
never reached on the intended calls. -/
def replaceAllAux : Nat → List Char → List Char
  | _, [] => []
  | 0, l => l
  | fuel + 1, c :: rest =>
    match matchAt (c :: rest) with
    | some n => replaceAllAux fuel (rest.drop (n - 1))
    | none => c :: replaceAllAux fuel rest

/-- Embeds `Regex::replace_all(text, "")`: scan left to right; at each position, if the
pattern matches, drop the matched characters and resume after the match,
otherwise keep the character and move on. -/
def replaceAll (l : List Char) : List Char :=
  replaceAllAux l.length l

/-- Returns `true` iff the pattern matches somewhere in `l`. -/
def hasMatch : List Char → Bool
  | [] => false
  | c :: rest => (matchAt (c :: rest)).isSome || hasMatch rest

/-- The output normalization applied by `stdout_matches_path` /
`stderr_matches_path`: `IGNORE_IN_FIXTURES.replace_all(s, "")`. -/
def normalize (s : String) : String :=
  ⟨replaceAll s.data⟩

/-! ## Process output and the `TestCommand` assertions

`std::process::Output` carries an exit status and the captured `stdout` /
`stderr` bytes.  The assertions only inspect `status.success()` and
byte-emptiness, and compare text obtained by `String::from_utf8_lossy`; we
model the two streams directly as the text the harness compares. -/

/-- Model of `std::process::Output` as consumed by the harness. -/
structure Output where
  success : Bool
  stdout : String
  stderr : String
deriving DecidableEq, Repr

/-- Model of `TestCommand::assert_non_empty_stderr`: it panics iff
`o.status.success() || o.stderr.is_empty()` (source lines 483–500).
Returns `true` iff the assertion fails (panics). -/
def assert_non_empty_stderr_panics (o : Output) : Bool :=
  o.success || o.stderr.isEmpty

/-- Model of `TestCommand::assert_non_empty_stdout`: it panics iff
`!o.status.success() || o.stdout.is_empty()` (source lines 503–520). -/
def assert_non_empty_stdout_panics (o : Output) : Bool :=
  !o.success || o.stdout.isEmpty

/-- Model of `TestCommand::assert_empty_stdout`: it panics iff
`!o.status.success() || !o.stderr.is_empty()` (source lines 523–540).
Note: despite its name and doc comment ("asserts that nothing was printed to
stdout"), the source tests `o.stderr.is_empty()`, never `o.stdout`. -/
def assert_empty_stdout_panics (o : Output) : Bool :=
  !o.success || !o.stderr.isEmpty

/-- Model of `OutputExt::stdout_matches_path` (source lines 592–602): read the fixture
text `expected`, strip `IGNORE_IN_FIXTURES` from both sides, and assert string
equality.  Returns `true` iff the assertion succeeds. -/
def stdout_matches_path (expected : String) (o : Output) : Bool :=
  normalize expected == normalize o.stdout

/-- Model of `OutputExt::stderr_matches_path` (source lines 604–613). -/
def stderr_matches_path (expected : String) (o : Output) : Bool :=
  normalize expected == normalize o.stderr

/-! ## The `Retry` combinator

`Retry { remaining: u32, delay: Option<Duration> }` re-invokes a fallible
operation.  `Retry::try` runs one attempt: on `Err` with `remaining > 0` it
logs, decrements `remaining`, optionally sleeps, and yields `Ok(None)`
(meaning "loop again"); otherwise it propagates the result wrapped in `Some`.
`Retry::run` loops `try` until it yields a value or an error.

The callback is modeled as a function from the attempt index (0-based) to the
result of that invocation; errors are an arbitrary type `ε`.  The delay only
sleeps and is observationally irrelevant, but we keep the field.  `run` is
instrumented to also return the total number of invocations performed. -/

structure Retry where
  remaining : Nat
  delay : Option Nat
deriving Repr, DecidableEq

namespace Retry

/-- Model of `Retry::new` (source lines 652–654). -/
def new (remaining : Nat) (delay : Option Nat) : Retry :=
  { remaining := remaining, delay := delay }

/-- Model of `Retry::try` (source lines 656–672), given the result `res` of invoking the
operation once: returns the value `try` produces together with the updated
retry state. -/
def tryOnce (r : Retry) (res : Except ε α) : Except ε (Option α) × Retry :=
  match res with
  | .error e =>
    if 0 < r.remaining then
      (.ok none, { r with remaining := r.remaining - 1 })
    else
      (.error e, r)
  | .ok v => (.ok (some v), r)

/-- The loop of `Retry::run` (source lines 674–686), starting at attempt index
`i`: repeatedly invoke the operation via `tryOnce` until a value or an error is
produced.  Returns the final result and the total number of invocations made
(i.e. the index one past the last attempt). -/
def runFrom (f : Nat → Except ε α) : Retry → Nat → Except ε α × Nat
  | r, i =>
    match f i with
    | .error e =>
      if 0 < r.remaining then
        runFrom f { r with remaining := r.remaining - 1 } (i + 1)
      else
        (.error e, i + 1)
    | .ok v => (.ok v, i + 1)
termination_by r _ => r.remaining
decreasing_by omega

/-- Model of `Retry::run`: loop from attempt 0. -/
def run (r : Retry) (f : Nat → Except ε α) : Except ε α × Nat :=
  runFrom f r 0

end Retry

/-! ## Paths, filesystem, and `TestProject::create_file`

Paths are modeled as an absolute/relative flag plus a component list
(`Path::is_relative`, `Path::join`, `Path::parent`).  The filesystem is a set
of existing directories plus a map from paths to file contents; `File::create`
followed by `write_all` overwrites. -/

structure FsPath where
  absolute : Bool
  components : List String
deriving DecidableEq, Repr

namespace FsPath

/-- Model of `Path::is_relative`. -/
def is_relative (p : FsPath) : Bool := !p.absolute

/-- Model of `Path::join`: an absolute right-hand side replaces the base. -/
def join (base p : FsPath) : FsPath :=
  if p.absolute then p else ⟨base.absolute, base.components ++ p.components⟩

/-- Model of `Path::parent`: strip the last component; `none` when there is none. -/
def parent (p : FsPath) : Option FsPath :=
  if p.components.isEmpty then none else some ⟨p.absolute, p.components.dropLast⟩

/-- A path together with all of its ancestor prefixes (what
`fs::create_dir_all` materializes). -/
def ancestors (p : FsPath) : List FsPath :=
  (List.range (p.components.length + 1)).map fun k => ⟨p.absolute, p.components.take k⟩

end FsPath

/-- The parts of the filesystem state the harness touches. -/
structure Fs where
  dirs : List FsPath
  files : List (FsPath × String)
deriving DecidableEq, Repr

namespace Fs

/-- Model of `fs::create_dir_all(p)`: `p` and all its ancestors exist afterwards. -/
def create_dir_all (fs : Fs) (p : FsPath) : Fs :=
  { fs with dirs := p.ancestors ++ fs.dirs }

/-- Model of `File::create(p)` followed by `write_all(contents)`: create or truncate, then write. -/
def writeFile (fs : Fs) (p : FsPath) (contents : String) : Fs :=
  { fs with files := (p, contents) :: fs.files }

/-- Contents currently on disk at `p`, if any. -/
def readFile (fs : Fs) (p : FsPath) : Option String :=
  (fs.files.find? fun kv => decide (kv.1 = p)).map (·.2)

end Fs

/-- Model of `TestProject::create_file` (source lines 188–201): panic (modeled as
`Except.error` carrying the panic message) if the path is not relative;
otherwise join it onto the project root, create the parent directories, write
the contents, and return the joined path.  The second component is the
resulting filesystem state (unchanged on the panic path). -/
def create_file (root : FsPath) (fs : Fs) (path : FsPath) (contents : String) :
    Except String FsPath × Fs :=
  if !path.is_relative then
    (.error "create_file(): file path is absolute", fs)
  else
    let full := root.join path
    let fs1 :=
      match full.parent with
      | some par => fs.create_dir_all par
      | none => fs
    (.ok full, fs1.writeFile full contents)

/-! ## The global project counter and directory names

`static NEXT_ID: AtomicUsize = AtomicUsize::new(0)` and
`TestProject::new`: `let id = NEXT_ID.fetch_add(1, Ordering::SeqCst)` followed
by `TempProject::with_style(&format!("{name}-{id}"), style)`.  `fetch_add` is
an atomic read-modify-write, so the values drawn by a sequence of calls are
exactly consecutive integers; we model the (linearized) sequence of draws. -/

/-- Model of `AtomicUsize::fetch_add(1, SeqCst)`: return the old value, increment. -/
def fetchAdd (st : Nat) : Nat × Nat := (st, st + 1)

/-- Draw `n` ids in sequence from counter state `st`; returns the ids drawn
and the final counter state. -/
def drawIds : Nat → Nat → List Nat × Nat
  | st, 0 => ([], st)
  | st, n + 1 =>
    let (id, st') := fetchAdd st
    let (ids, st'') := drawIds st' n
    (id :: ids, st'')

/-- The directory name `format!("{name}-{id}")` used by `TestProject::new`. -/
def projectDirName (name : String) (id : Nat) : String :=
  name ++ "-" ++ Nat.repr id

/-- Interpret a list of decimal digit characters as a number. -/
def digitsVal (l : List Char) : Nat :=
  l.foldl (fun acc c => acc * 10 + (c.toNat - 48)) 0

/-! ## Process sessions, the working-directory lock, and teardown

`TestCommand` stores the working directory saved at creation (`saved_cwd`,
captured in `forge_command` / `cast_command` while transiently holding
`CURRENT_DIR_LOCK`) and optionally a guard of the global lock
(`current_dir_lock: Option<MutexGuard>`).

`set_current_dir` drops any guard it already holds, then blocks until it can
acquire `CURRENT_DIR_LOCK`, stores the guard, and changes the process-wide
working directory.  `Drop for TestCommand` takes the stored guard — or, if
none is stored, acquires the lock — and restores `saved_cwd`; Rust runs this
during unwinding as well, so teardown also happens when the test body panics.

We model the (linearized) atomic events of concurrently running sessions as a
labelled transition system.  The mutex is modeled by its contract: an
acquisition step is enabled only when no one holds the lock. -/

/-- Per-`TestCommand` state. -/
structure Session where
  savedCwd : String
  hasGuard : Bool
deriving DecidableEq, Repr

/-- Global state: the `CURRENT_DIR_LOCK` holder, the process-wide current
working directory, and the per-session states (indexed by session id). -/
structure Sys where
  holder : Option Nat
  cwd : String
  sessions : Nat → Session

/-- Events a session can perform. `create` is `forge_command`/`cast_command`
(transiently locks, saves the cwd); `releaseOwn` is the `drop(take())` at the
start of `set_current_dir` when a guard was stored; `acquireChdir` is the rest
of `set_current_dir` (acquire, store the guard, chdir); `dropOwnGuard` /
`dropFree` are `Drop for TestCommand` with and without a stored guard;
`execute` runs the child process (no lock, no process-cwd change). -/
inductive Action where
  | create
  | releaseOwn
  | acquireChdir (p : String)
  | dropOwnGuard
  | dropFree
  | execute
deriving DecidableEq, Repr

/-- Update one session's state. -/
def updSession (f : Nat → Session) (s : Nat) (v : Session) : Nat → Session :=
  fun s' => if s' = s then v else f s'

/-- The labelled transition relation: `Step sys (s, a) sys'` says session `s`
performs event `a` in state `sys`, yielding `sys'`. -/
inductive Step : Sys → Nat × Action → Sys → Prop where
  | create (sys : Sys) (s : Nat) (hfree : sys.holder = none) :
      Step sys (s, .create)
        { sys with sessions := updSession sys.sessions s ⟨sys.cwd, false⟩ }
  | releaseOwn (sys : Sys) (s : Nat) (hg : (sys.sessions s).hasGuard = true) :
      Step sys (s, .releaseOwn)
        { sys with holder := none,
                   sessions := updSession sys.sessions s ⟨(sys.sessions s).savedCwd, false⟩ }
  | acquireChdir (sys : Sys) (s : Nat) (p : String)
      (hfree : sys.holder = none) (hng : (sys.sessions s).hasGuard = false) :
      Step sys (s, .acquireChdir p)
        { holder := some s, cwd := p,
          sessions := updSession sys.sessions s ⟨(sys.sessions s).savedCwd, true⟩ }
  | dropOwnGuard (sys : Sys) (s : Nat) (hg : (sys.sessions s).hasGuard = true) :
      Step sys (s, .dropOwnGuard)
        { holder := none, cwd := (sys.sessions s).savedCwd,
          sessions := updSession sys.sessions s ⟨(sys.sessions s).savedCwd, false⟩ }
  | dropFree (sys : Sys) (s : Nat)
      (hng : (sys.sessions s).hasGuard = false) (hfree : sys.holder = none) :
      Step sys (s, .dropFree)
        { sys with cwd := (sys.sessions s).savedCwd }
  | execute (sys : Sys) (s : Nat) :
      Step sys (s, .execute) sys

/-- A sequence of steps. -/
inductive Trace : Sys → List (Nat × Action) → Sys → Prop where
  | nil (sys : Sys) : Trace sys [] sys
  | cons {sys1 sys2 sys3 : Sys} {e : Nat × Action} {tr : List (Nat × Action)}
      (h : Step sys1 e sys2) (htr : Trace sys2 tr sys3) : Trace sys1 (e :: tr) sys3

/-- Process start: lock free, no session created yet. -/
def initSys (cwd : String) : Sys :=
  { holder := none, cwd := cwd, sessions := fun _ => ⟨"", false⟩ }

/-- States reachable from some process start by interleaved session events. -/
inductive Reachable : Sys → Prop where
  | init (cwd : String) : Reachable (initSys cwd)
  | step {sys sys' : Sys} {e : Nat × Action}
      (h : Reachable sys) (hs : Step sys e sys') : Reachable sys'

/-- Lock-ownership invariant: a session stores a guard only if it is the
current holder of `CURRENT_DIR_LOCK`. -/
def GuardInv (sys : Sys) : Prop :=
  ∀ s, (sys.sessions s).hasGuard = true → sys.holder = some s

/-- Demonstration run, state 0: process starts with working directory
`"/orig"`. -/
def demoSys0 : Sys := initSys "/orig"

/-- Demonstration run, state 1: session 0 is created (`forge_command`). -/
def demoSys1 : Sys :=
  { demoSys0 with sessions := updSession demoSys0.sessions 0 ⟨demoSys0.cwd, false⟩ }

/-- Demonstration run, state 2: session 0 performed `set_current_dir("/w")`. -/
def demoSys2 : Sys :=
  { holder := some 0, cwd := "/w",
    sessions := updSession demoSys1.sessions 0 ⟨(demoSys1.sessions 0).savedCwd, true⟩ }

/-- Demonstration run, state 3: session 0 is dropped. -/
def demoSys3 : Sys :=
  { holder := none, cwd := (demoSys2.sessions 0).savedCwd,
    sessions := updSession demoSys2.sessions 0 ⟨(demoSys2.sessions 0).savedCwd, false⟩ }

/-! ## Theorems: supporting lemmas -/

/-- If the pattern matches nowhere in `l`, `replaceAllAux` leaves `l`
unchanged (given enough fuel). -/
theorem replaceAllAux_eq_self_of_not_hasMatch :
    ∀ (fuel : Nat) (l : List Char), l.length ≤ fuel → hasMatch l = false →
      replaceAllAux fuel l = l := by
  intro fuel
  induction fuel with
  | zero =>
    intro l hl _
    cases l with
    | nil => rfl
    | cons c rest => simp at hl
  | succ fuel ih =>
    intro l hl h
    cases l with
    | nil => rfl
    | cons c rest =>
      simp only [hasMatch, Bool.or_eq_false_iff] at h
      simp only [List.length_cons] at hl
      cases hm : matchAt (c :: rest) with
      | some n => rw [hm] at h; simp at h
      | none =>
        rw [replaceAllAux, hm]
        exact congrArg (c :: ·) (ih rest (by omega) h.2)

/-- If the pattern matches nowhere in `l`, `replaceAll` leaves `l` unchanged. -/
theorem replaceAll_eq_self_of_not_hasMatch (l : List Char) (h : hasMatch l = false) :
    replaceAll l = l :=
  replaceAllAux_eq_self_of_not_hasMatch l.length l (le_refl _) h

/-- One step of `Retry.runFrom` agrees with `Retry::try` followed by the `run`
loop, mirroring the structure of the source. -/
theorem Retry.runFrom_eq_tryOnce (f : Nat → Except ε α) (r : Retry) (i : Nat) :
    Retry.runFrom f r i =
      match r.tryOnce (f i) with
      | (.ok (some v), _) => (.ok v, i + 1)
      | (.ok none, r') => Retry.runFrom f r' (i + 1)
      | (.error e, _) => (.error e, i + 1) := by
  rw [Retry.runFrom]
  cases hf : f i with
  | error e =>
    by_cases hr : 0 < r.remaining <;> simp [Retry.tryOnce, hr]
  | ok v => simp [Retry.tryOnce]

/-- Running `Retry.runFrom` on an operation that fails at every attempt: the loop
makes `R + 1` further invocations and ends with the error of the last one. -/
theorem retry_runFrom_all_errors {ε α : Type} (err : Nat → ε) (d : Option Nat) :
    ∀ (R i : Nat),
      Retry.runFrom (fun j => (Except.error (err j) : Except ε α)) ⟨R, d⟩ i
        = (Except.error (err (i + R)), i + R + 1) := by
  intro R
  induction R with
  | zero =>
    intro i
    rw [Retry.runFrom]
    simp
  | succ R ih =>
    intro i
    rw [Retry.runFrom]
    simp only [Nat.succ_sub_one, Nat.zero_lt_succ, if_true]
    rw [ih (i + 1)]
    have harith : i + 1 + R = i + (R + 1) := by omega
    rw [harith]

/-- Running `Retry.runFrom` on an operation that fails for the first `k` attempts and
succeeds at attempt `i + k`: the loop returns that success after exactly
`k + 1` further invocations, provided `k ≤ R`. -/
theorem retry_runFrom_success {ε α : Type} (f : Nat → Except ε α) (d : Option Nat) (v : α) :
    ∀ (k R i : Nat), (∀ j, j < k → ∃ e, f (i + j) = Except.error e) →
      f (i + k) = Except.ok v → k ≤ R →
      Retry.runFrom f ⟨R, d⟩ i = (Except.ok v, i + k + 1) := by
  intro k
  induction k with
  | zero =>
    intro R i hfail hok hk
    rw [Retry.runFrom]
    rw [show i + 0 = i from rfl] at hok
    simp [hok]
  | succ k ih =>
    intro R i hfail hok hk
    obtain ⟨e, he⟩ := hfail 0 (Nat.succ_pos k)
    rw [show i + 0 = i from rfl] at he
    rw [Retry.runFrom]
    simp only [he]
    rw [if_pos (by omega : (0:Nat) < R)]
    have h1 : ∀ j, j < k → ∃ e', f (i + 1 + j) = Except.error e' := by
      intro j hj
      have hf := hfail (j + 1) (by omega)
      rwa [show i + (j + 1) = i + 1 + j by omega] at hf
    have h2 : f (i + 1 + k) = Except.ok v := by
      rwa [show i + 1 + k = i + (k + 1) by omega]
    have h3 := ih (R - 1) (i + 1) h1 h2 (by omega)
    rw [h3]
    have harith : i + 1 + k = i + (k + 1) := by omega
    rw [harith]

/-! ### Injectivity of decimal formatting

`{name}-{id}` determines `id`: the decimal digits contain no `'-'`, so the
segment after the last `'-'` of the formatted name is exactly `Nat.repr id`.
We prove `Nat.repr` injective by evaluating the digit list back to a number. -/

theorem toDigitsCore_append (b : Nat) :
    ∀ (fuel n : Nat) (ds : List Char),
      Nat.toDigitsCore b fuel n ds = Nat.toDigitsCore b fuel n [] ++ ds := by
  intro fuel
  induction fuel with
  | zero => intro n ds; simp [Nat.toDigitsCore]
  | succ fuel ih =>
    intro n ds
    simp only [Nat.toDigitsCore]
    by_cases h : n / b = 0
    · simp [h]
    · simp only [h, ite_false]
      rw [ih (n / b) (Nat.digitChar (n % b) :: ds), ih (n / b) [Nat.digitChar (n % b)]]
      simp

theorem digitsVal_append_singleton (l : List Char) (c : Char) :
    digitsVal (l ++ [c]) = digitsVal l * 10 + (c.toNat - 48) := by
  simp [digitsVal, List.foldl_append]

theorem digitChar_toNat (d : Nat) (h : d < 10) : (Nat.digitChar d).toNat - 48 = d := by
  interval_cases d <;> decide

theorem digitsVal_toDigitsCore :
    ∀ (fuel n : Nat), n < fuel → digitsVal (Nat.toDigitsCore 10 fuel n []) = n := by
  intro fuel
  induction fuel with
  | zero => intro n hn; omega
  | succ fuel ih =>
    intro n hn
    have hmod : n % 10 < 10 := Nat.mod_lt _ (by norm_num)
    have hdm := Nat.div_add_mod n 10
    simp only [Nat.toDigitsCore]
    by_cases h : n / 10 = 0
    · simp only [h, ite_true]
      have hv := digitChar_toNat (n % 10) hmod
      simp only [digitsVal, List.foldl_cons, List.foldl_nil, Nat.zero_mul, Nat.zero_add, hv]
      omega
    · simp only [h, ite_false]
      rw [toDigitsCore_append, digitsVal_append_singleton,
        ih (n / 10) (by have := Nat.div_lt_self (by omega : 0 < n) (by norm_num : 1 < 10); omega),
        digitChar_toNat _ hmod]
      omega

theorem natRepr_inj {a b : Nat} (h : Nat.repr a = Nat.repr b) : a = b := by
  have hdata : Nat.toDigits 10 a = Nat.toDigits 10 b := congrArg String.data h
  have ha := digitsVal_toDigitsCore (a + 1) a (Nat.lt_succ_self a)
  have hb := digitsVal_toDigitsCore (b + 1) b (Nat.lt_succ_self b)
  calc a = digitsVal (Nat.toDigits 10 a) := ha.symm
    _ = digitsVal (Nat.toDigits 10 b) := congrArg digitsVal hdata
    _ = b := hb

theorem digitChar_ne_dash (d : Nat) : Nat.digitChar d ≠ '-' := by
  by_cases h : d < 16
  · interval_cases d <;> decide
  · have hstar : Nat.digitChar d = '*' := by
      unfold Nat.digitChar
      repeat rw [if_neg (by omega)]
    rw [hstar]
    decide

theorem toDigitsCore_ne_dash (b : Nat) :
    ∀ (fuel n : Nat) (ds : List Char), '-' ∉ ds → '-' ∉ Nat.toDigitsCore b fuel n ds := by
  intro fuel
  induction fuel with
  | zero => intro n ds h; simpa [Nat.toDigitsCore] using h
  | succ fuel ih =>
    intro n ds h
    have hcons : '-' ∉ Nat.digitChar (n % b) :: ds := by
      intro hmem
      rcases List.mem_cons.mp hmem with h1 | h2
      · exact digitChar_ne_dash _ h1.symm
      · exact h h2
    simp only [Nat.toDigitsCore]
    by_cases hz : n / b = 0
    · simpa [hz] using hcons
    · simpa [hz] using ih (n / b) _ hcons

theorem repr_ne_dash (n : Nat) : '-' ∉ (Nat.repr n).data :=
  toDigitsCore_ne_dash 10 (n + 1) n [] (by simp)

theorem takeWhile_append_dash (l1 l2 : List Char) (h : '-' ∉ l1) :
    (l1 ++ '-' :: l2).takeWhile (fun c => c != '-') = l1 := by
  induction l1 with
  | nil => simp
  | cons c cs ih =>
    have hc : c ≠ '-' := fun hh => h (hh ▸ List.mem_cons_self c cs)
    have hcs : '-' ∉ cs := fun hh => h (List.mem_cons_of_mem _ hh)
    simp only [List.cons_append, List.takeWhile_cons]
    simp [hc, ih hcs]

/-- Different counter values give different `{name}-{id}` directory names,
whatever the name hints are. -/
theorem projectDirName_inj_id {n1 n2 : String} {i1 i2 : Nat}
    (h : projectDirName n1 i1 = projectDirName n2 i2) : i1 = i2 := by
  have hd : n1.data ++ '-' :: (Nat.repr i1).data = n2.data ++ '-' :: (Nat.repr i2).data := by
    have := congrArg String.data h
    simpa [projectDirName] using this
  have hrev := congrArg List.reverse hd
  simp only [List.reverse_append, List.reverse_cons, List.append_assoc,
    List.singleton_append] at hrev
  have ht := congrArg (List.takeWhile (fun c => c != '-')) hrev
  rw [takeWhile_append_dash _ _ (by simpa using repr_ne_dash i1),
    takeWhile_append_dash _ _ (by simpa using repr_ne_dash i2)] at ht
  have hdata : (Nat.repr i1).data = (Nat.repr i2).data := by
    have := congrArg List.reverse ht
    simpa using this
  exact natRepr_inj (String.ext hdata)

theorem drawIds_fst (st n : Nat) : (drawIds st n).1 = List.range' st n := by
  induction n generalizing st with
  | zero => rfl
  | succ n ih => simp [drawIds, fetchAdd, List.range'_succ, ih]

theorem exists_of_mem_zipWith {α β γ : Type} {f : α → β → γ} :
    ∀ {as : List α} {bs : List β} {x : γ}, x ∈ List.zipWith f as bs →
      ∃ a b, a ∈ as ∧ b ∈ bs ∧ x = f a b := by
  intro as
  induction as with
  | nil => intro bs x h; simp at h
  | cons a as ih =>
    intro bs x h
    cases bs with
    | nil => simp at h
    | cons b bs =>
      rw [List.zipWith_cons_cons] at h
      rcases List.mem_cons.mp h with h | h
      · exact ⟨a, b, List.mem_cons_self a as, List.mem_cons_self b bs, h⟩
      · obtain ⟨a', b', ha, hb, hx⟩ := ih h
        exact ⟨a', b', List.mem_cons_of_mem _ ha, List.mem_cons_of_mem _ hb, hx⟩

theorem projectNames_pairwise (hs : List String) :
    ∀ st : Nat,
      (List.zipWith projectDirName hs (List.range' st hs.length)).Pairwise (· ≠ ·) := by
  induction hs with
  | nil => intro st; simp
  | cons h hs ih =>
    intro st
    rw [List.length_cons, List.range'_succ, List.zipWith_cons_cons]
    refine List.Pairwise.cons ?_ (ih (st + 1))
    intro x hx hcontra
    obtain ⟨a, b, _, hb, hxeq⟩ := exists_of_mem_zipWith hx
    obtain ⟨i, _, rfl⟩ := List.mem_range'.mp hb
    have := projectDirName_inj_id (hcontra.trans hxeq)
    omega

/-! ### Session-system lemmas -/

theorem guardInv_init (cwd : String) : GuardInv (initSys cwd) := by
  intro s h
  simp [initSys] at h

theorem guardInv_step {sys sys' : Sys} {e : Nat × Action}
    (hstep : Step sys e sys') (hinv : GuardInv sys) : GuardInv sys' := by
  cases hstep with
  | create s hfree =>
    intro t ht
    by_cases hts : t = s
    · subst hts; simp [updSession] at ht
    · simp only [updSession] at ht
      rw [if_neg hts] at ht
      exact hinv t ht
  | releaseOwn s hg =>
    intro t ht
    by_cases hts : t = s
    · subst hts; simp [updSession] at ht
    · simp only [updSession] at ht
      rw [if_neg hts] at ht
      have h1 := hinv t ht
      have hs := hinv s hg
      rw [h1] at hs
      exact absurd (Option.some.inj hs) hts
  | acquireChdir s p hfree hng =>
    intro t ht
    by_cases hts : t = s
    · subst hts; rfl
    · simp only [updSession] at ht
      rw [if_neg hts] at ht
      rw [hinv t ht] at hfree
      exact absurd hfree (by simp)
  | dropOwnGuard s hg =>
    intro t ht
    by_cases hts : t = s
    · subst hts; simp [updSession] at ht
    · simp only [updSession] at ht
      rw [if_neg hts] at ht
      have h1 := hinv t ht
      have hs := hinv s hg
      rw [h1] at hs
      exact absurd (Option.some.inj hs) hts
  | dropFree s hng hfree =>
    intro t ht
    exact hinv t ht
  | execute s =>
    exact hinv

theorem guardInv_of_reachable {sys : Sys} (h : Reachable sys) : GuardInv sys := by
  induction h with
  | init cwd => exact guardInv_init cwd
  | step _ hs ih => exact guardInv_step hs ih

/-- No step ever changes a session's `saved_cwd` except re-creating that
session id. -/
theorem savedCwd_step {sys sys' : Sys} {e : Nat × Action} (s : Nat)
    (hstep : Step sys e sys') (hne : e ≠ (s, Action.create)) :
    (sys'.sessions s).savedCwd = (sys.sessions s).savedCwd := by
  cases hstep with
  | create t hfree =>
    have hts : s ≠ t := fun hh => hne (by rw [hh])
    simp only [updSession]
    rw [if_neg hts]
  | releaseOwn t hg =>
    by_cases hts : s = t
    · subst hts; simp [updSession]
    · simp only [updSession]
      rw [if_neg hts]
  | acquireChdir t p hfree hng =>
    by_cases hts : s = t
    · subst hts; simp [updSession]
    · simp only [updSession]
      rw [if_neg hts]
  | dropOwnGuard t hg =>
    by_cases hts : s = t
    · subst hts; simp [updSession]
    · simp only [updSession]
      rw [if_neg hts]
  | dropFree t hng hfree => rfl
  | execute t => rfl

theorem savedCwd_trace {sys1 sys2 : Sys} {tr : List (Nat × Action)} (s : Nat)
    (htr : Trace sys1 tr sys2)
    (hnc : ∀ e ∈ tr, e ≠ (s, Action.create)) :
    (sys2.sessions s).savedCwd = (sys1.sessions s).savedCwd := by
  induction htr with
  | nil sys => rfl
  | cons h htr ih =>
    rename_i sys1' sys2' sys3' e tr'
    have h1 := savedCwd_step s (by exact h) (hnc e (List.mem_cons_self e tr'))
    have h2 := ih fun e' he' => hnc e' (List.mem_cons_of_mem _ he')
    rw [h2, h1]

/-- While some session stores the lock guard, a step by any other session
neither changes the process-wide working directory nor removes that guard. -/
theorem cwd_unchanged_of_other_step {sys sys' : Sys} {e : Nat × Action} (s1 : Nat)
    (hinv : GuardInv sys) (hg : (sys.sessions s1).hasGuard = true)
    (hstep : Step sys e sys') (hne : e.1 ≠ s1) :
    sys'.cwd = sys.cwd ∧ (sys'.sessions s1).hasGuard = true := by
  have hh := hinv s1 hg
  cases hstep with
  | create s hfree => rw [hh] at hfree; exact absurd hfree (by simp)
  | releaseOwn s hgt =>
    have hts := hinv s hgt
    rw [hh] at hts
    exact absurd (Option.some.inj hts).symm hne
  | acquireChdir s p hfree hng => rw [hh] at hfree; exact absurd hfree (by simp)
  | dropOwnGuard s hgt =>
    have hts := hinv s hgt
    rw [hh] at hts
    exact absurd (Option.some.inj hts).symm hne
  | dropFree s hng hfree => rw [hh] at hfree; exact absurd hfree (by simp)
  | execute s => exact ⟨rfl, hg⟩

/-- The demonstration state in which session 0 holds the lock is reachable. -/
theorem demoSys2_reachable : Reachable demoSys2 :=
  Reachable.step
    (Reachable.step (Reachable.init "/orig") (Step.create demoSys0 0 rfl))
    (Step.acquireChdir demoSys1 0 "/w" rfl rfl)

/-! ## Theorems: the claims -/

/-- C1.  For every error sequence and every `R`, `Retry::run` with
`remaining = R` on an operation that fails on every attempt invokes the
operation exactly `R + 1` times (at least once even when `R = 0`) and returns
the error produced by the final attempt (index `R`) unchanged. -/
theorem c1_retry_exhausts_returns_final_error (R : Nat) (d : Option Nat)
    {ε α : Type} (err : Nat → ε) :
    Retry.run (Retry.new R d) (fun j => (Except.error (err j) : Except ε α))
      = (Except.error (err R), R + 1) := by
  have h := retry_runFrom_all_errors (α := α) err d R 0
  simpa [Retry.run, Retry.new] using h

/-- C5.  If the operation fails on the first `k` attempts and succeeds at
attempt index `k` (the `(k+1)`-st invocation) with `k ≤ R`, then `Retry::run`
with `remaining = R` returns that success value after exactly `k + 1`
invocations — no further attempts after the success. -/
theorem c5_retry_returns_first_success (R k : Nat) (d : Option Nat)
    {ε α : Type} (f : Nat → Except ε α) (v : α)
    (hfail : ∀ j, j < k → ∃ e, f j = Except.error e)
    (hok : f k = Except.ok v) (hk : k ≤ R) :
    Retry.run (Retry.new R d) f = (Except.ok v, k + 1) := by
  have h := retry_runFrom_success f d v k R 0 (by simpa using hfail) (by simpa using hok) hk
  simpa [Retry.run, Retry.new] using h

/-- C5 witness: the spec scenario — `remaining = 2`, no delay, the operation
fails twice then succeeds with `42`: the result is `Ok(42)` after 3 attempts. -/
theorem c5_retry_witness :
    Retry.run (Retry.new 2 none)
        (fun j => if j < 2 then (Except.error "boom" : Except String Nat) else Except.ok 42)
      = (Except.ok 42, 3) := by
  have h := c5_retry_returns_first_success 2 2 none
    (fun j => if j < 2 then (Except.error "boom" : Except String Nat) else Except.ok 42) 42
    (fun j hj => ⟨"boom", by simp [hj]⟩) (by simp) (le_refl 2)
  simpa using h

/-- C2 counterexample.  Normalization is not idempotent: in
`"fini-->.solshed in s"` the first pass removes the `-->.sol` match, and the
glued-together result `"finished in s"` is itself a match that only the second
pass removes. -/
theorem c2_normalize_not_idempotent :
    normalize (normalize "fini-->.solshed in s") ≠ normalize "fini-->.solshed in s" := by
  decide

/-- C2 (amended).  Normalization is idempotent on every text whose normalized
form contains no residual occurrence of the volatile patterns; it is not
idempotent in general (see the counterexample). -/
theorem c2_normalize_idempotent_of_no_residual_match (x : String)
    (h : hasMatch (normalize x).data = false) :
    normalize (normalize x) = normalize x :=
  congrArg String.mk (replaceAll_eq_self_of_not_hasMatch (normalize x).data h)

/-- C2 witness: `"finished in 5s"` normalizes to `""`, which has no residual
match, so normalizing twice agrees with normalizing once. -/
theorem c2_normalize_idempotent_witness :
    hasMatch (normalize "finished in 5s").data = false ∧
      normalize (normalize "finished in 5s") = normalize "finished in 5s" :=
  ⟨by decide, c2_normalize_idempotent_of_no_residual_match "finished in 5s" (by decide)⟩

/-- C3.  `assert_empty_stdout` contradicts its own name and doc comment
("asserts that nothing was printed to stdout"): on a successful command that
printed `"hello"` to stdout (and nothing to stderr) it does not fail, and on a
successful command with empty stdout but non-empty stderr it fails. -/
theorem c3_assert_empty_stdout_checks_stderr :
    assert_empty_stdout_panics { success := true, stdout := "hello", stderr := "" } = false ∧
      ("hello" : String) ≠ "" ∧
      assert_empty_stdout_panics { success := true, stdout := "", stderr := "oops" } = true := by
  refine ⟨rfl, ?_, rfl⟩
  decide

/-- C10.  `assert_non_empty_stderr` passes iff the command exited
unsuccessfully *and* wrote something to stderr; in particular it fails
whenever the exit status is success, even if stderr is non-empty. -/
theorem c10_assert_non_empty_stderr_iff (o : Output) :
    assert_non_empty_stderr_panics o = false ↔ o.success = false ∧ o.stderr ≠ "" := by
  rcases o with ⟨su, sout, serr⟩
  simp only [assert_non_empty_stderr_panics, Bool.or_eq_false_iff]
  constructor
  · rintro ⟨h1, h2⟩
    refine ⟨h1, fun hh => ?_⟩
    subst hh
    exact absurd h2 (by decide)
  · rintro ⟨h1, h2⟩
    refine ⟨h1, ?_⟩
    cases he : String.isEmpty serr
    · rfl
    · exact absurd (String.isEmpty_iff serr |>.mp he) h2

/-- C10 witness: a failed command with non-empty stderr does not trip the
assertion; applying the equivalence at a successful command shows it panics. -/
theorem c10_assert_non_empty_stderr_witness :
    assert_non_empty_stderr_panics { success := false, stdout := "", stderr := "err" } = false :=
  (c10_assert_non_empty_stderr_iff ⟨false, "", "err"⟩).mpr ⟨rfl, by decide⟩

/-- C4 (amended).  The fixture comparison succeeds exactly when the normalized
fixture text equals the normalized captured stream (and likewise for stderr);
in particular a stream differing from the fixture only in the elapsed-time
phrase compares equal.  Comparing a text against its own normalized self can
fail, because normalization is not idempotent (see the counterexample). -/
theorem c4_matches_iff_normalized_eq :
    (∀ (e : String) (o : Output),
        stdout_matches_path e o = true ↔ normalize e = normalize o.stdout) ∧
    (∀ (e : String) (o : Output),
        stderr_matches_path e o = true ↔ normalize e = normalize o.stderr) ∧
      stdout_matches_path "done finished in 5s"
        { success := true, stdout := "done finished in 123s", stderr := "" } = true := by
  refine ⟨fun e o => ?_, fun e o => ?_, by decide⟩
  · exact beq_iff_eq
  · exact beq_iff_eq

/-- C4 witness: instantiating the equivalence at a concrete fixture/stream. -/
theorem c4_matches_witness :
    stdout_matches_path "abc" { success := true, stdout := "abc", stderr := "" } = true :=
  (c4_matches_iff_normalized_eq.1 "abc" ⟨true, "abc", ""⟩).mpr rfl

/-- C4 counterexample.  Comparing a stream against its own normalized self as
the fixture is not guaranteed to succeed: for `"fini-->.solshed in s"` the
fixture `normalize(x)` normalizes to `""` while the stream normalizes to
`"finished in s"`. -/
theorem c4_self_normalized_fails :
    stdout_matches_path (normalize "fini-->.solshed in s")
      { success := true, stdout := "fini-->.solshed in s", stderr := "" } = false := by
  decide

/-- C6.  `create_file` panics on an absolute path without touching the
filesystem; on a relative path it returns exactly `root.join(p)`, the parent
directories all exist afterwards, and the content stored at the returned path
is exactly the given contents. -/
theorem c6_create_file_contract (root : FsPath) (fs : Fs) (p : FsPath) (c : String) :
    (p.is_relative = false →
      create_file root fs p c = (.error "create_file(): file path is absolute", fs)) ∧
    (p.is_relative = true →
      (create_file root fs p c).1 = Except.ok (root.join p) ∧
      ((create_file root fs p c).2).readFile (root.join p) = some c ∧
      ∀ par, (root.join p).parent = some par →
        ∀ d ∈ par.ancestors, d ∈ ((create_file root fs p c).2).dirs) := by
  constructor
  · intro habs
    simp [create_file, habs]
  · intro hrel
    have hcond : (!p.is_relative) = false := by rw [hrel]; rfl
    refine ⟨?_, ?_, ?_⟩
    · simp [create_file, hcond]
    · simp [create_file, hcond, Fs.readFile, Fs.writeFile, List.find?]
    · intro par hpar d hd
      simp [create_file, hcond, hpar, Fs.writeFile, Fs.create_dir_all, hd]

/-- C6 witness: the spec scenario — writing `src/Foo.sol` with contents
`"contract Foo {}"` into workspace root `/w` returns `/w/src/Foo.sol` and its
content round-trips; the absolute-path case errors without changing the
filesystem. -/
theorem c6_create_file_witness :
    (create_file ⟨true, ["w"]⟩ ⟨[], []⟩ ⟨false, ["src", "Foo.sol"]⟩ "contract Foo \x7b\x7d").1
        = Except.ok ⟨true, ["w", "src", "Foo.sol"]⟩ ∧
      ((create_file ⟨true, ["w"]⟩ ⟨[], []⟩ ⟨false, ["src", "Foo.sol"]⟩
          "contract Foo \x7b\x7d").2).readFile ⟨true, ["w", "src", "Foo.sol"]⟩
        = some "contract Foo \x7b\x7d" ∧
      create_file ⟨true, ["w"]⟩ ⟨[], []⟩ ⟨true, ["etc"]⟩ "x"
        = (.error "create_file(): file path is absolute", ⟨[], []⟩) := by
  have h := c6_create_file_contract ⟨true, ["w"]⟩ ⟨[], []⟩ ⟨false, ["src", "Foo.sol"]⟩
    "contract Foo \x7b\x7d"
  have habs := c6_create_file_contract ⟨true, ["w"]⟩ ⟨[], []⟩ ⟨true, ["etc"]⟩ "x"
  exact ⟨(h.2 rfl).1, (h.2 rfl).2.1, habs.1 rfl⟩

/-- C7.  Any number of `TestProject::new` calls in the same process draw
pairwise-distinct values from the global atomic counter, and hence — whatever
the name hints are, identical or not — the generated `{name}-{id}` directory
names are pairwise distinct. -/
theorem c7_counter_and_names_distinct (start : Nat) (hints : List String) :
    (drawIds start hints.length).1.Nodup ∧
      (List.zipWith projectDirName hints (drawIds start hints.length).1).Pairwise (· ≠ ·) := by
  rw [drawIds_fst]
  exact ⟨by simp [List.nodup_range'], projectNames_pairwise hints start⟩

/-- C8.  If a session is created (saving the then-current working directory),
an arbitrary interleaving of events by it and other sessions follows (none
re-creating this session id), and the session is then torn down — with or
without a stored lock guard — the process-wide working directory equals the
one in effect when the session was created.  Panic of the test body is covered
because `Drop` runs during unwinding, so the teardown step still occurs. -/
theorem c8_teardown_restores_cwd (sys0 sys1 sys2 sys3 : Sys) (s : Nat)
    (tr : List (Nat × Action))
    (hc : Step sys0 (s, Action.create) sys1)
    (htr : Trace sys1 tr sys2)
    (hnc : ∀ e ∈ tr, e ≠ (s, Action.create))
    (hd : Step sys2 (s, Action.dropOwnGuard) sys3 ∨ Step sys2 (s, Action.dropFree) sys3) :
    sys3.cwd = sys0.cwd := by
  have hsaved1 : (sys1.sessions s).savedCwd = sys0.cwd := by
    cases hc with
    | create hfree => simp [updSession]
  have hsaved2 : (sys2.sessions s).savedCwd = sys0.cwd := by
    rw [savedCwd_trace s htr hnc, hsaved1]
  rcases hd with hd | hd
  · cases hd with
    | dropOwnGuard hg => exact hsaved2
  · cases hd with
    | dropFree hng hfree => exact hsaved2

/-- C8 witness: in the demonstration run — create session 0 at `"/orig"`,
`set_current_dir("/w")`, then drop — the final working directory is `"/orig"`. -/
theorem c8_teardown_witness : demoSys3.cwd = "/orig" :=
  c8_teardown_restores_cwd demoSys0 demoSys1 demoSys2 demoSys3 0
    [(0, Action.acquireChdir "/w")]
    (Step.create demoSys0 0 rfl)
    (Trace.cons (Step.acquireChdir demoSys1 0 "/w" rfl rfl) (Trace.nil demoSys2))
    (by intro e he; rw [List.mem_singleton] at he; subst he; decide)
    (Or.inl (Step.dropOwnGuard demoSys2 0 rfl))

/-- C9.  In every reachable state, at most one session stores the
working-directory lock guard (mutual exclusion); and while a session stores
the guard, any event of any other session neither changes the process-wide
working directory nor takes the guard away from the holder. -/
theorem c9_lock_mutual_exclusion (sys sys' : Sys) (s1 s2 s' : Nat) (a : Action)
    (hr : Reachable sys) :
    ((sys.sessions s1).hasGuard = true → (sys.sessions s2).hasGuard = true → s1 = s2) ∧
    ((sys.sessions s1).hasGuard = true → Step sys (s', a) sys' → s' ≠ s1 →
      sys'.cwd = sys.cwd ∧ (sys'.sessions s1).hasGuard = true) := by
  have hinv := guardInv_of_reachable hr
  constructor
  · intro h1 h2
    have e1 := hinv s1 h1
    have e2 := hinv s2 h2
    rw [e1] at e2
    exact Option.some.inj e2
  · intro hg hstep hne
    exact cwd_unchanged_of_other_step s1 hinv hg hstep hne

/-- C9 witness: in the reachable demonstration state where session 0 stores
the guard, an `execute` event of session 1 changes neither the working
directory nor session 0's guard. -/
theorem c9_lock_witness :
    demoSys2.cwd = demoSys2.cwd ∧ (demoSys2.sessions 0).hasGuard = true :=
  (c9_lock_mutual_exclusion demoSys2 demoSys2 0 0 1 Action.execute demoSys2_reachable).2
    rfl (Step.execute demoSys2 1) (by decide)

end Foundry
